import Mathlib

/-!
# Verification of the Investment-helper backend core

Shallow embedding of the provider-fallback orchestrator, the provider
circuit-breaker state machine, the feature-engineering pipeline and the
walk-forward validation / prediction guards of the repository, together
with proofs settling the frozen specification claims.

Floating-point values from the source are modelled as rationals; the two
irrational scalar functions the source applies (natural logarithm in
`LogReturn1`, square root inside the rolling standard deviation) are
abstracted as function parameters, and the external gradient-boosting
classifier (scikit-learn) is abstracted as an accuracy oracle.
-/

namespace InvestmentHelper

/-! ## core/config.py -/

/-- Embedding of `CONFIDENCE_HIGH = 0.65` from `core/config.py`. -/
def CONFIDENCE_HIGH : ℚ := 65 / 100

/-- Embedding of `CONFIDENCE_MEDIUM = 0.55` from `core/config.py`. -/
def CONFIDENCE_MEDIUM : ℚ := 55 / 100

/-! ## services/model_service.py : ModelService.get_confidence_label

    if probability >= CONFIDENCE_HIGH or probability <= (1 - CONFIDENCE_HIGH):
        return "HIGH"
    elif probability >= CONFIDENCE_MEDIUM and probability <= (1 - CONFIDENCE_MEDIUM):
        return "MEDIUM"
    else:
        return "LOW"
-/

/-- Embedding of `ModelService.get_confidence_label`. -/
def get_confidence_label (probability : ℚ) : String :=
  if probability ≥ CONFIDENCE_HIGH ∨ probability ≤ 1 - CONFIDENCE_HIGH then
    "HIGH"
  else if probability ≥ CONFIDENCE_MEDIUM ∧ probability ≤ 1 - CONFIDENCE_MEDIUM then
    "MEDIUM"
  else
    "LOW"

/-! ## services/data_providers/base_provider.py : circuit-breaker state -/

/-- Mutable per-provider circuit-breaker state (`is_available`, `error_count`)
from `StockDataProvider.__init__`. -/
structure ProvState where
  errorCount : ℕ
  isAvailable : Bool
  deriving Repr, DecidableEq

/-- `self.max_errors = 5` from `StockDataProvider.__init__`. -/
def maxErrors : ℕ := 5

/-- Initial state from `StockDataProvider.__init__`:
`is_available = True`, `error_count = 0`. -/
def initState : ProvState := ⟨0, true⟩

/-- Embedding of `StockDataProvider.on_success`. -/
def on_success (_ : ProvState) : ProvState := ⟨0, true⟩

/-- Embedding of `StockDataProvider.on_error`: increment the counter and
disable the provider once it reaches `maxErrors`. -/
def on_error (s : ProvState) : ProvState :=
  let ec := s.errorCount + 1
  ⟨ec, if ec ≥ maxErrors then false else s.isAvailable⟩

/-- Embedding of `StockDataProvider.reset_errors`. -/
def reset_errors (_ : ProvState) : ProvState := ⟨0, true⟩

/-- The three state-mutating operations on a provider's circuit-breaker. -/
inductive ProvOp where
  | success
  | error
  | reset
  deriving Repr, DecidableEq

/-- Apply one operation to a (base, non-local) provider state. -/
def applyOp (s : ProvState) : ProvOp → ProvState
  | .success => on_success s
  | .error => on_error s
  | .reset => reset_errors s

/-- Run a sequence of operations from a starting state. -/
def runOps (s : ProvState) (ops : List ProvOp) : ProvState :=
  ops.foldl applyOp s

/-- The circuit-breaker invariant claimed by the spec. -/
def breakerInv (s : ProvState) : Prop :=
  s.isAvailable = false ↔ s.errorCount ≥ maxErrors

/-! ## services/data_providers/local_provider.py : LocalDatabaseProvider -/

/-- Embedding of `LocalDatabaseProvider.on_error`: logs only, does not
touch `error_count` or `is_available`. -/
def local_on_error (s : ProvState) : ProvState := s

/-- Apply one operation to the local-database provider's state
(`on_success` and `reset_errors` are inherited from the base class,
`on_error` is overridden to a no-op). -/
def localApplyOp (s : ProvState) : ProvOp → ProvState
  | .success => on_success s
  | .error => local_on_error s
  | .reset => reset_errors s

/-- Run a sequence of operations on the local provider's state. -/
def localRunOps (s : ProvState) (ops : List ProvOp) : ProvState :=
  ops.foldl localApplyOp s

/-! ## services/model_service.py : ModelService.walk_forward_validation

The scikit-learn classifier is external; a fit-and-score on the slice pair
`(train_end_idx, test_end_idx)` is abstracted as an accuracy oracle
`score : ℕ → ℕ → ℚ` (deterministic, as the source fixes `random_state=42`).
-/

/-- The three validation splits `[(0.6, 0.8), (0.7, 0.9), (0.8, 1.0)]`. -/
def splits : List (ℚ × ℚ) := [(6 / 10, 8 / 10), (7 / 10, 9 / 10), (8 / 10, 1)]

/-- `int(n_samples * pct)`: truncation of a nonnegative rational, i.e. floor. -/
def splitIdx (n : ℕ) (pct : ℚ) : ℕ := (⌊(n : ℚ) * pct⌋).toNat

/-- One iteration of the validation loop: skip the split when the test slice
`X[train_end:test_end]` has fewer than 10 rows, else append its accuracy to
`accuracies` and add the test-slice row count to `total_test_samples`. The
test-slice row count equals `test_end - train_end` since both indices lie in
`[0, n]` in ascending order. -/
def wfvStep (n : ℕ) (score : ℕ → ℕ → ℚ) (acc : List ℚ × ℕ) (sp : ℚ × ℚ) :
    List ℚ × ℕ :=
  let trainEnd := splitIdx n sp.1
  let testEnd := splitIdx n sp.2
  if testEnd - trainEnd < 10 then acc
  else (acc.1 ++ [score trainEnd testEnd], acc.2 + (testEnd - trainEnd))

/-- Embedding of `ModelService.walk_forward_validation`: fold the loop over
the three splits; `(0.5, 0)` when every split was skipped, else the
unweighted mean of the collected accuracies with the total test-sample
count. -/
def walk_forward_validation (n : ℕ) (score : ℕ → ℕ → ℚ) : ℚ × ℕ :=
  let r := splits.foldl (wfvStep n score) ([], 0)
  if r.1 = [] then (1 / 2, 0)
  else (r.1.sum / (r.1.length : ℚ), r.2)

/-- Spec-side reading: the index pairs of the splits whose test slice has at
least 10 rows. -/
def keptOf (n : ℕ) (sps : List (ℚ × ℚ)) : List (ℕ × ℕ) :=
  (sps.map (fun sp => (splitIdx n sp.1, splitIdx n sp.2))).filter
    (fun p => 10 ≤ p.2 - p.1)

/-- The kept splits among the three chronological splits of the source. -/
def keptSplits (n : ℕ) : List (ℕ × ℕ) := keptOf n splits

/-! ## services/features.py

OHLCV values are rationals; a missing value (pandas NaN) is `none`. The two
irrational scalar functions of the source — `np.log` in `LogReturn1` and the
square root inside `rolling.std()` — are abstracted as parameters `logFn` and
`sqrtFn`. Whether a cell is `none` never depends on these values. -/

/-- One OHLCV bar: a row of the input DataFrame. -/
structure Bar where
  Open : ℚ
  High : ℚ
  Low : ℚ
  Close : ℚ
  Volume : ℚ
  deriving Repr, DecidableEq

/-- `1e-9`, the epsilon added to every denominator in `features.py`. -/
def eps : ℚ := 1 / 1000000000

/-- Project a column of the DataFrame as a total series (only indices below
the frame length are ever used). -/
def col (f : Bar → ℚ) (df : List Bar) : ℕ → ℚ :=
  fun i => ((df.get? i).map f).getD 0

/-- Lift a never-NaN series into the optional-value world. -/
def pureS (x : ℕ → ℚ) : ℕ → Option ℚ := fun i => some (x i)

/-- Combine two optional cells; NaN propagates (`none` if either is `none`). -/
def omap2 (f : ℚ → ℚ → ℚ) : Option ℚ → Option ℚ → Option ℚ
  | some a, some b => some (f a b)
  | _, _ => none

/-- All cells of a window, or `none` when any cell is NaN (pandas `rolling`
with default `min_periods = window`: a window containing a NaN yields NaN). -/
def seqOption : List (Option ℚ) → Option (List ℚ)
  | [] => some []
  | none :: _ => none
  | some x :: rest => (seqOption rest).map (fun l => x :: l)

/-- Trailing window of width `w` ending at index `i`, newest cell first. -/
def window (w : ℕ) (s : ℕ → Option ℚ) (i : ℕ) : List (Option ℚ) :=
  (List.range w).map (fun j => s (i - j))

/-- pandas `rolling(w)` aggregation: defined once the window is full. -/
def rollingApply (f : List ℚ → ℚ) (w : ℕ) (s : ℕ → Option ℚ) : ℕ → Option ℚ :=
  fun i => if w ≤ i + 1 then (seqOption (window w s i)).map f else none

/-- pandas `rolling(w).mean()`. -/
def rollingMean (w : ℕ) (s : ℕ → Option ℚ) : ℕ → Option ℚ :=
  rollingApply (fun l => l.sum / (w : ℚ)) w s

/-- pandas `rolling(w).std()`: sample standard deviation (`ddof = 1`),
square root abstracted by `sqrtFn`. -/
def rollingStd (sqrtFn : ℚ → ℚ) (w : ℕ) (s : ℕ → Option ℚ) : ℕ → Option ℚ :=
  rollingApply
    (fun l => sqrtFn ((l.map (fun x => (x - l.sum / (w : ℚ)) ^ 2)).sum / ((w : ℚ) - 1)))
    w s

/-- pandas `rolling(w).min()`. -/
def rollingMin (w : ℕ) (s : ℕ → Option ℚ) : ℕ → Option ℚ :=
  rollingApply (fun l => (l.min?).getD 0) w s

/-- pandas `rolling(w).max()`. -/
def rollingMax (w : ℕ) (s : ℕ → Option ℚ) : ℕ → Option ℚ :=
  rollingApply (fun l => (l.max?).getD 0) w s

/-- pandas `pct_change(k)` on a never-NaN series: NaN for the first `k` rows. -/
def pctChange (k : ℕ) (x : ℕ → ℚ) : ℕ → Option ℚ :=
  fun i => if k ≤ i then some ((x i - x (i - k)) / x (i - k)) else none

/-- `compute_ema`: `ewm(span, adjust=False).mean()` on a never-NaN series —
seeded with the first value, smoothing factor `2 / (span + 1)`. -/
def compute_ema (span : ℕ) (x : ℕ → ℚ) : ℕ → ℚ
  | 0 => x 0
  | i + 1 =>
    let a : ℚ := 2 / ((span : ℚ) + 1)
    (1 - a) * compute_ema span x i + a * x (i + 1)

/-- `close.diff()`: NaN at row 0. -/
def diffSeries (x : ℕ → ℚ) : ℕ → Option ℚ :=
  fun i => if 1 ≤ i then some (x i - x (i - 1)) else none

/-- `delta.where(delta > 0, 0.0)` of `compute_rsi`: a NaN comparison is
false, so the NaN at row 0 is replaced by the fill value `0.0`. -/
def gainSeries (x : ℕ → ℚ) : ℕ → Option ℚ := fun i =>
  some (match diffSeries x i with
        | none => 0
        | some d => if 0 < d then d else 0)

/-- `(-delta).where(delta < 0, 0.0)` of `compute_rsi`. -/
def lossSeries (x : ℕ → ℚ) : ℕ → Option ℚ := fun i =>
  some (match diffSeries x i with
        | none => 0
        | some d => if d < 0 then -d else 0)

/-- `compute_rsi` with period 14:
`RSI = 100 - 100 / (1 + avgGain / (avgLoss + eps))`. -/
def compute_rsi (x : ℕ → ℚ) : ℕ → Option ℚ := fun i =>
  omap2 (fun g l => 100 - 100 / (1 + g / (l + eps)))
    (rollingMean 14 (gainSeries x) i) (rollingMean 14 (lossSeries x) i)

/-- `compute_macd` MACD line: `EMA12(Close) - EMA26(Close)` (never NaN). -/
def macdLine (x : ℕ → ℚ) : ℕ → ℚ := fun i => compute_ema 12 x i - compute_ema 26 x i

/-- `compute_macd` signal line: `EMA9(MACD)` (never NaN). -/
def macdSignal (x : ℕ → ℚ) : ℕ → ℚ := compute_ema 9 (macdLine x)

/-- `compute_stochastic` %K:
`100 * (Close - rollingMin14(Low)) / (rollingMax14(High) - rollingMin14(Low) + eps)`. -/
def stochK (hi lo c : ℕ → ℚ) : ℕ → Option ℚ := fun i =>
  omap2 (fun ll hh => 100 * (c i - ll) / (hh - ll + eps))
    (rollingMin 14 (pureS lo) i) (rollingMax 14 (pureS hi) i)

/-- `compute_stochastic` %D: 3-bar rolling mean of %K. -/
def stochD (hi lo c : ℕ → ℚ) : ℕ → Option ℚ := rollingMean 3 (stochK hi lo c)

/-- `compute_bollinger_bands` upper band: `SMA20 + 2 * rollingStd20`. -/
def bbUpper (sqrtFn : ℚ → ℚ) (c : ℕ → ℚ) : ℕ → Option ℚ := fun i =>
  omap2 (fun m s => m + 2 * s)
    (rollingMean 20 (pureS c) i) (rollingStd sqrtFn 20 (pureS c) i)

/-- `compute_bollinger_bands` lower band: `SMA20 - 2 * rollingStd20`. -/
def bbLower (sqrtFn : ℚ → ℚ) (c : ℕ → ℚ) : ℕ → Option ℚ := fun i =>
  omap2 (fun m s => m - 2 * s)
    (rollingMean 20 (pureS c) i) (rollingStd sqrtFn 20 (pureS c) i)

/-- `compute_bollinger_bands` width: `(upper - lower) / (sma + eps)`. -/
def bbWidth (sqrtFn : ℚ → ℚ) (c : ℕ → ℚ) : ℕ → Option ℚ := fun i =>
  omap2 (fun d m => d / (m + eps))
    (omap2 (fun u l => u - l) (bbUpper sqrtFn c i) (bbLower sqrtFn c i))
    (rollingMean 20 (pureS c) i)

/-- `compute_atr` true range: rowwise max of `high - low`,
`|high - prevClose|`, `|low - prevClose|`; pandas `max(axis=1)` skips NaN, so
row 0 (where `prevClose` is NaN) falls back to `high - low` and the series is
never NaN. -/
def trueRange (hi lo c : ℕ → ℚ) : ℕ → Option ℚ := fun i =>
  some (if 1 ≤ i then
          max (hi i - lo i)
            (max (abs (hi i - c (i - 1))) (abs (lo i - c (i - 1))))
        else hi i - lo i)

/-- `compute_atr`: 14-bar rolling mean of the true range. -/
def compute_atr (hi lo c : ℕ → ℚ) : ℕ → Option ℚ :=
  rollingMean 14 (trueRange hi lo c)

/-- The 26 engineered feature cells of one row, in `get_feature_columns`
order: Return1, Return5, Return10, Return20, LogReturn1, Volatility10,
Volatility20, SMA10, SMA20, SMA50, EMA10, EMA20, RSI14, MACD, MACD_Signal,
Stochastic_K, Stochastic_D, BB_Upper, BB_Lower, BB_Width, ATR14, HL_Range,
Gap, Volume_Change, Volume_SMA20, Volume_Ratio. -/
def featureCells (logFn sqrtFn : ℚ → ℚ) (df : List Bar) (i : ℕ) :
    List (Option ℚ) :=
  let O := col Bar.Open df
  let H := col Bar.High df
  let L := col Bar.Low df
  let C := col Bar.Close df
  let V := col Bar.Volume df
  [ pctChange 1 C i,
    pctChange 5 C i,
    pctChange 10 C i,
    pctChange 20 C i,
    (if 1 ≤ i then some (logFn (C i / C (i - 1))) else none),
    rollingStd sqrtFn 10 (pctChange 1 C) i,
    rollingStd sqrtFn 20 (pctChange 1 C) i,
    rollingMean 10 (pureS C) i,
    rollingMean 20 (pureS C) i,
    rollingMean 50 (pureS C) i,
    some (compute_ema 10 C i),
    some (compute_ema 20 C i),
    compute_rsi C i,
    some (macdLine C i),
    some (macdSignal C i),
    stochK H L C i,
    stochD H L C i,
    bbUpper sqrtFn C i,
    bbLower sqrtFn C i,
    bbWidth sqrtFn C i,
    compute_atr H L C i,
    some ((H i - L i) / (C i + eps)),
    (if 1 ≤ i then some ((O i - C (i - 1)) / (C (i - 1) + eps)) else none),
    pctChange 1 V i,
    rollingMean 20 (pureS V) i,
    (rollingMean 20 (pureS V) i).map (fun m => V i / (m + eps)) ]

/-- A row of the engineered DataFrame: the 26 feature cells, the `Close`
price and the integer `Target` column (`astype(int)` of a NaN-free boolean
comparison, hence never NaN). -/
structure FeatureRow where
  features : List (Option ℚ)
  Close : ℚ
  Target : ℕ
  deriving Repr, DecidableEq

/-- Default row used only as the out-of-range fallback of `List.getD`. -/
def emptyRow : FeatureRow := ⟨[], 0, 0⟩

/-- Row `i` of the engineered DataFrame. `Target` is
`(Close.shift(-1) > Close).astype(int)`: 1 iff a next bar exists and closes
strictly higher (the NaN produced by `shift(-1)` on the final row compares
false, giving 0). -/
def mkRow (logFn sqrtFn : ℚ → ℚ) (df : List Bar) (i : ℕ) : FeatureRow :=
  { features := featureCells logFn sqrtFn df i
    Close := col Bar.Close df i
    Target :=
      if i + 1 < df.length ∧ col Bar.Close df i < col Bar.Close df (i + 1)
      then 1 else 0 }

/-- Embedding of `engineer_features`: one engineered row per input bar. -/
def engineer_features (logFn sqrtFn : ℚ → ℚ) (df : List Bar) :
    List FeatureRow :=
  (List.range df.length).map (mkRow logFn sqrtFn df)

/-- A row whose 26 feature cells are all present (non-NaN). `Target` is an
integer column and never NaN, so
`dropna(subset=features + [Target])` keeps exactly these rows. -/
def fullRow (r : FeatureRow) : Bool := r.features.all Option.isSome

/-- The NaN-dropping filter of `ModelService.train_and_predict`:
`data.dropna(subset=features + [Target])`. -/
def dropnaRows (rows : List FeatureRow) : List FeatureRow :=
  rows.filter fullRow

/-- A concrete 50-bar input frame used to instantiate the warm-up claims. -/
def df50 : List Bar := List.replicate 50 ⟨100, 101, 99, 100, 1000⟩

/-! ## services/model_service.py : ModelService.train_and_predict guards -/

/-- `f"Insufficient data for {ticker}"`. -/
def insufficientDataMsg (ticker : String) : String :=
  "Insufficient data for " ++ ticker

/-- `f"Not enough valid data after feature engineering for {ticker}"`. -/
def notEnoughValidMsg (ticker : String) : String :=
  "Not enough valid data after feature engineering for " ++ ticker

/-- Embedding of `ModelService.train_and_predict` up to its two data guards;
`history` is the result of `YahooFinanceService.get_historical_data`
(`none` = `df is None`), and everything after the guards (scikit-learn
fitting and the response payload) is abstracted as `rest`. -/
def train_and_predict {α : Type} (logFn sqrtFn : ℚ → ℚ)
    (rest : List FeatureRow → α) (ticker : String)
    (history : Option (List Bar)) : Except String α :=
  match history with
  | none => .error (insufficientDataMsg ticker)
  | some df =>
    if df.length < 200 then .error (insufficientDataMsg ticker)
    else
      let modelData := dropnaRows (engineer_features logFn sqrtFn df)
      if modelData.length < 100 then .error (notEnoughValidMsg ticker)
      else .ok (rest modelData)

/-- A concrete 150-bar history, below the 200-bar minimum. -/
def bars150 : List Bar := List.replicate 150 ⟨100, 101, 99, 100, 1000⟩

/-! ## services/multi_provider_fetcher.py : fetch_comprehensive_stocks

Providers' `fetch_stock_data` coroutines are abstracted as pure behaviours
`Option (List String) → Except Unit (List StockRec)` (`none` = called with no
symbols argument, as for the local provider; `.error` = the call raises).
The run is instrumented with a log of the fetch calls made and of the
providers whose `on_error` the orchestrator invoked. -/

/-- A stock record: the `'ticker'` key (`""` when absent) that drives
deduplication, plus an opaque payload standing for the remaining fields. -/
structure StockRec where
  ticker : String
  payload : ℕ
  deriving Repr, DecidableEq

/-- A provider as seen by the orchestrator loop: identity, whether it is the
`LocalDatabaseProvider`, its circuit-breaker state, and its fetch behaviour. -/
structure Provider where
  name : String
  isLocal : Bool
  state : ProvState
  fetch : Option (List String) → Except Unit (List StockRec)

/-- `_get_default_symbols()`: default NSE symbols for API providers. -/
def default_symbols : List String := [
  "RELIANCE.NS", "TCS.NS", "HDFCBANK.NS", "BHARTIARTL.NS", "ICICIBANK.NS",
  "SBIN.NS", "INFY.NS", "LT.NS", "ITC.NS", "HINDUNILVR.NS",
  "KOTAKBANK.NS", "HDFC.NS", "AXISBANK.NS", "BAJFINANCE.NS", "MARUTI.NS",
  "ASIANPAINT.NS", "HCLTECH.NS", "WIPRO.NS", "ULTRACEMCO.NS", "DMART.NS",
  "TITAN.NS", "NESTLEIND.NS", "TECHM.NS", "POWERGRID.NS", "M&M.NS",
  "ONGC.NS", "TATAMOTORS.NS", "NTPC.NS", "JSWSTEEL.NS", "INDUSINDBK.NS",
  "BAJAJFINSV.NS", "HDFCLIFE.NS", "GRASIM.NS", "COALINDIA.NS", "BRITANNIA.NS",
  "SBILIFE.NS", "EICHERMOT.NS", "SUNPHARMA.NS", "DRREDDY.NS", "CIPLA.NS",
  "DIVISLAB.NS", "ADANIENT.NS", "TATASTEEL.NS", "APOLLOHOSP.NS", "BAJAJ-AUTO.NS",
  "HEROMOTOCO.NS", "UPL.NS", "TRENT.NS", "ADANIPORTS.NS", "BPCL.NS",
  "ZOMATO.NS", "NYKAA.NS", "PAYTM.NS", "IRCTC.NS", "POLICYBZR.NS",
  "LATENTVIEW.NS", "CAMS.NS", "ROUTE.NS", "HAPPSTMNDS.NS", "INDIGO.NS"]

/-- Partition `search_terms` into ticker-like and company-name-like terms: a
term with a space, or longer than 10 characters without an `.NS`/`.BO`
suffix, is treated as a company name. -/
def classifyTerms (terms : List String) : List String × List String :=
  terms.foldl
    (fun acc term =>
      if (' ' ∈ term.toList) ∨
         (term.length > 10 ∧
           ¬ (List.isSuffixOf ".NS".toList term.toList ∨
              List.isSuffixOf ".BO".toList term.toList)) then
        (acc.1, acc.2 ++ [term])
      else
        (acc.1 ++ [term], acc.2))
    ([], [])

/-- The company-name search loop (`for name in company_names[:3]`), wrapped
in a single inner `try`: a raise aborts the remaining names but keeps the
results already extended and is swallowed. Returns the accumulated stocks and
the symbols arguments of the fetch calls made. -/
def nameSearch (f : Option (List String) → Except Unit (List StockRec)) :
    List String → List StockRec → List StockRec × List (Option (List String))
  | [], stocks => (stocks, [])
  | nm :: rest, stocks =>
    match f (some [nm]) with
    | .error _ => (stocks, [some [nm]])
    | .ok r =>
      let next := nameSearch f rest (stocks ++ r)
      (next.1, some [nm] :: next.2)

/-- One iteration body of the provider loop, inside the outer `try`: the
local provider fetches its full listing; an API provider searches the
ticker-like terms (inner `try`, raise swallowed), then the first three
name-like terms when it still has fewer than 3 results (inner `try`), then
falls back to the default symbols when it found nothing and no terms were
supplied — only that fallback call (and the local full fetch) can raise out
to the outer handler. Returns the outcome and the fetch calls made. -/
def providerBody (p : Provider) (tickerSyms nameSyms : List String)
    (hasTerms : Bool) :
    Except Unit (List StockRec) × List (String × Option (List String)) :=
  if p.isLocal then
    (p.fetch none, [(p.name, none)])
  else
    let r1 : List StockRec × List (String × Option (List String)) :=
      if tickerSyms ≠ [] then
        match p.fetch (some tickerSyms) with
        | .error _ => ([], [(p.name, some tickerSyms)])
        | .ok r => (r, [(p.name, some tickerSyms)])
      else ([], [])
    let r2 : List StockRec × List (String × Option (List String)) :=
      if nameSyms ≠ [] ∧ r1.1.length < 3 then
        let ns := nameSearch p.fetch (nameSyms.take 3) r1.1
        (ns.1, r1.2 ++ ns.2.map (fun a => (p.name, a)))
      else r1
    if r2.1 = [] ∧ hasTerms = false then
      (p.fetch (some default_symbols), r2.2 ++ [(p.name, some default_symbols)])
    else
      (.ok r2.1, r2.2)

/-- Instrumented outcome of a `fetch_comprehensive_stocks` run: the
accumulated `all_results`, the returned deduplicated results, the fetch calls
made and the providers whose `on_error` the loop called. -/
structure RunLog where
  rawResults : List StockRec
  results : List StockRec
  fetchCalls : List (String × Option (List String))
  onErrorCalls : List String
  deriving Repr, DecidableEq

/-- Log update for one provider outcome: an outer-level raise records the
`on_error` call; a non-empty result list extends `all_results`; the flag is
the early-break test `search_terms and len(all_results) >= 5`. -/
def stepProvider (p : Provider) (hasTerms : Bool) (acc : RunLog)
    (outcome : Except Unit (List StockRec))
    (calls : List (String × Option (List String))) : RunLog × Bool :=
  match outcome with
  | .error _ =>
    ({ acc with fetchCalls := acc.fetchCalls ++ calls,
                onErrorCalls := acc.onErrorCalls ++ [p.name] }, false)
  | .ok stocks =>
    let acc1 : RunLog := { acc with fetchCalls := acc.fetchCalls ++ calls }
    if stocks ≠ [] then
      let acc2 : RunLog := { acc1 with rawResults := acc1.rawResults ++ stocks }
      (acc2, hasTerms && decide (5 ≤ acc2.rawResults.length))
    else
      (acc1, false)

/-- The provider loop: skip the local provider when terms were supplied; run
the body, update the log, stop on the early-break flag, else continue with
the next provider. -/
def runProviders (tickerSyms nameSyms : List String) (hasTerms : Bool) :
    List Provider → RunLog → RunLog
  | [], acc => acc
  | p :: rest, acc =>
    if p.isLocal && hasTerms then
      runProviders tickerSyms nameSyms hasTerms rest acc
    else
      let pb := providerBody p tickerSyms nameSyms hasTerms
      let st := stepProvider p hasTerms acc pb.1 pb.2
      if st.2 then st.1
      else runProviders tickerSyms nameSyms hasTerms rest st.1

/-- The deduplication pass: `if ticker and ticker not in seen_tickers` —
first occurrence of each non-empty ticker wins, empty-ticker records are
dropped. -/
def dedupByTicker (seen : List String) : List StockRec → List StockRec
  | [] => []
  | s :: rest =>
    if s.ticker ≠ "" ∧ s.ticker ∉ seen then
      s :: dedupByTicker (seen ++ [s.ticker]) rest
    else
      dedupByTicker seen rest

/-- Embedding of `MultiProviderStockFetcher.fetch_comprehensive_stocks`:
filter to available providers (empty answer when none), partition the search
terms, run the provider loop, deduplicate the accumulated records by ticker. -/
def fetch_comprehensive_stocks (providers : List Provider)
    (searchTerms : List String) : RunLog :=
  let avail := providers.filter (fun p => p.state.isAvailable)
  if avail.isEmpty then ⟨[], [], [], []⟩
  else
    let ts := classifyTerms searchTerms
    let log := runProviders ts.1 ts.2 (!searchTerms.isEmpty) avail ⟨[], [], [], []⟩
    { log with results := dedupByTicker [] log.rawResults }

/-- The symbols argument a provider receives in a no-terms run. -/
def noTermsArg (p : Provider) : Option (List String) :=
  if p.isLocal then none else some default_symbols

/-- Whether the provider's single no-terms fetch raises. -/
def raisesNoTerms (p : Provider) : Bool :=
  match p.fetch (noTermsArg p) with
  | .error _ => true
  | .ok _ => false

/-- The records of the provider's single no-terms fetch (`[]` on a raise). -/
def okNoTerms (p : Provider) : List StockRec :=
  match p.fetch (noTermsArg p) with
  | .error _ => []
  | .ok r => r

/-- A concrete local provider holding two records. -/
def localProv : Provider :=
  { name := "Local Database", isLocal := true, state := ⟨0, true⟩,
    fetch := fun _ => .ok [⟨"TCS.NS", 1⟩, ⟨"INFY.NS", 2⟩] }

/-- A concrete API provider returning one record on any fetch. -/
def apiProv : Provider :=
  { name := "YFinance Direct", isLocal := false, state := ⟨0, true⟩,
    fetch := fun _ => .ok [⟨"RELIANCE.NS", 3⟩] }

/-- A concrete API provider whose every fetch raises. -/
def badApiProv : Provider :=
  { name := "AlphaVantage", isLocal := false, state := ⟨0, true⟩,
    fetch := fun _ => .error () }

/-- A concrete API provider returning a record whose ticker duplicates one of
the local provider's records, with a different payload. -/
def dupApiProv : Provider :=
  { name := "Finnhub", isLocal := false, state := ⟨0, true⟩,
    fetch := fun _ => .ok [⟨"TCS.NS", 99⟩, ⟨"SBIN.NS", 7⟩] }

/-! ## Helper lemmas -/

lemma on_error_errorCount (s : ProvState) :
    (on_error s).errorCount = s.errorCount + 1 := rfl

lemma on_error_isAvailable (s : ProvState) :
    (on_error s).isAvailable =
      if s.errorCount + 1 ≥ maxErrors then false else s.isAvailable := rfl

lemma breakerInv_applyOp {s : ProvState} (h : breakerInv s) (op : ProvOp) :
    breakerInv (applyOp s op) := by
  cases op with
  | success =>
    simp [applyOp, on_success, breakerInv, maxErrors]
  | reset =>
    simp [applyOp, reset_errors, breakerInv, maxErrors]
  | error =>
    have hh : s.isAvailable = false ↔ s.errorCount ≥ 5 := h
    show (on_error s).isAvailable = false ↔ (on_error s).errorCount ≥ maxErrors
    rw [on_error_isAvailable, on_error_errorCount]
    by_cases hec : s.errorCount + 1 ≥ maxErrors
    · rw [if_pos hec]
      exact ⟨fun _ => hec, fun _ => rfl⟩
    · rw [if_neg hec]
      simp only [maxErrors] at hec ⊢
      constructor
      · intro hf
        have := hh.mp hf
        omega
      · intro hge
        omega

lemma breakerInv_runOps {s : ProvState} (h : breakerInv s) (ops : List ProvOp) :
    breakerInv (runOps s ops) := by
  induction ops generalizing s with
  | nil => exact h
  | cons op rest ih => exact ih (breakerInv_applyOp h op)

lemma localApplyOp_fixed (op : ProvOp) :
    localApplyOp ⟨0, true⟩ op = ⟨0, true⟩ := by
  cases op <;> rfl

lemma foldl_wfvStep (n : ℕ) (score : ℕ → ℕ → ℚ) (sps : List (ℚ × ℚ)) :
    ∀ acc : List ℚ × ℕ,
      sps.foldl (wfvStep n score) acc =
        (acc.1 ++ (keptOf n sps).map (fun p => score p.1 p.2),
         acc.2 + ((keptOf n sps).map (fun p => p.2 - p.1)).sum) := by
  induction sps with
  | nil =>
    intro acc
    simp [keptOf]
  | cons sp rest ih =>
    intro acc
    by_cases h : 10 ≤ splitIdx n sp.2 - splitIdx n sp.1
    · have hlt : ¬ (splitIdx n sp.2 - splitIdx n sp.1 < 10) := by omega
      simp only [List.foldl_cons, wfvStep, keptOf, List.map_cons, List.filter_cons]
      rw [if_neg hlt]
      rw [if_pos (decide_eq_true h)]
      rw [ih]
      simp [keptOf, List.append_assoc, Nat.add_assoc]
    · have hlt : splitIdx n sp.2 - splitIdx n sp.1 < 10 := by omega
      simp only [List.foldl_cons, wfvStep, keptOf, List.map_cons, List.filter_cons]
      rw [if_pos hlt]
      have hd : decide (10 ≤ splitIdx n sp.2 - splitIdx n sp.1) = false := by
        simp [h]
      simp only [hd, Bool.false_eq_true, if_neg]
      rw [ih]
      simp [keptOf]

lemma isSome_pureS (x : ℕ → ℚ) (i : ℕ) : (pureS x i).isSome = true := rfl

lemma isSome_gainSeries (x : ℕ → ℚ) (i : ℕ) : (gainSeries x i).isSome = true := rfl

lemma isSome_lossSeries (x : ℕ → ℚ) (i : ℕ) : (lossSeries x i).isSome = true := rfl

lemma isSome_trueRange (hi lo c : ℕ → ℚ) (i : ℕ) :
    (trueRange hi lo c i).isSome = true := rfl

lemma isSome_omap {α β : Type} (f : α → β) {o : Option α} (h : o.isSome = true) :
    (o.map f).isSome = true := by
  cases o with
  | none => simp at h
  | some x => rfl

lemma isSome_omap2 (f : ℚ → ℚ → ℚ) {a b : Option ℚ} (ha : a.isSome = true)
    (hb : b.isSome = true) : (omap2 f a b).isSome = true := by
  cases a with
  | none => simp at ha
  | some x =>
    cases b with
    | none => simp at hb
    | some y => rfl

lemma isSome_pctChange {k i : ℕ} (x : ℕ → ℚ) (h : k ≤ i) :
    (pctChange k x i).isSome = true := by
  simp [pctChange, h]

lemma isSome_seqOption {l : List (Option ℚ)} (h : ∀ x ∈ l, x.isSome = true) :
    (seqOption l).isSome = true := by
  induction l with
  | nil => rfl
  | cons hd tl ih =>
    cases hd with
    | none => exact absurd (h none (by simp)) (by simp)
    | some x =>
      have h2 := ih (fun y hy => h y (List.mem_cons_of_mem _ hy))
      cases hs : seqOption tl with
      | none => rw [hs] at h2; simp at h2
      | some l2 => simp [seqOption, hs]

lemma isSome_rollingApply (f : List ℚ → ℚ) {w i : ℕ} {s : ℕ → Option ℚ}
    (hw : w ≤ i + 1) (hs : ∀ j < w, (s (i - j)).isSome = true) :
    (rollingApply f w s i).isSome = true := by
  simp only [rollingApply, if_pos hw]
  apply isSome_omap
  apply isSome_seqOption
  intro x hx
  simp only [window, List.mem_map, List.mem_range] at hx
  obtain ⟨j, hj, rfl⟩ := hx
  exact hs j hj

lemma isSome_rollingMean {w i : ℕ} (s : ℕ → Option ℚ) (hw : w ≤ i + 1)
    (hs : ∀ j < w, (s (i - j)).isSome = true) :
    (rollingMean w s i).isSome = true :=
  isSome_rollingApply _ hw hs

lemma isSome_rollingStd (sqrtFn : ℚ → ℚ) {w i : ℕ} (s : ℕ → Option ℚ)
    (hw : w ≤ i + 1) (hs : ∀ j < w, (s (i - j)).isSome = true) :
    (rollingStd sqrtFn w s i).isSome = true :=
  isSome_rollingApply _ hw hs

lemma isSome_rollingMin {w i : ℕ} (s : ℕ → Option ℚ) (hw : w ≤ i + 1)
    (hs : ∀ j < w, (s (i - j)).isSome = true) :
    (rollingMin w s i).isSome = true :=
  isSome_rollingApply _ hw hs

lemma isSome_rollingMax {w i : ℕ} (s : ℕ → Option ℚ) (hw : w ≤ i + 1)
    (hs : ∀ j < w, (s (i - j)).isSome = true) :
    (rollingMax w s i).isSome = true :=
  isSome_rollingApply _ hw hs

lemma isSome_stochK {i : ℕ} (hi lo c : ℕ → ℚ) (h : 13 ≤ i) :
    (stochK hi lo c i).isSome = true := by
  apply isSome_omap2
  · exact isSome_rollingMin _ (by omega) (fun j _ => isSome_pureS _ _)
  · exact isSome_rollingMax _ (by omega) (fun j _ => isSome_pureS _ _)

lemma fullRow_mkRow_of_ge {i : ℕ} (logFn sqrtFn : ℚ → ℚ) (df : List Bar)
    (h : 49 ≤ i) : fullRow (mkRow logFn sqrtFn df i) = true := by
  have h1 : (1 : ℕ) ≤ i := by omega
  simp only [fullRow, mkRow, featureCells, List.all_cons, List.all_nil,
    Bool.and_true, Bool.and_eq_true]
  refine ⟨?_, ?_, ?_, ?_, ?_, ?_, ?_, ?_, ?_, ?_, ?_, ?_, ?_, ?_, ?_, ?_,
    ?_, ?_, ?_, ?_, ?_, ?_, ?_, ?_, ?_, ?_⟩
  · exact isSome_pctChange _ h1
  · exact isSome_pctChange _ (by omega)
  · exact isSome_pctChange _ (by omega)
  · exact isSome_pctChange _ (by omega)
  · rw [if_pos h1]; rfl
  · exact isSome_rollingStd _ _ (by omega)
      (fun j hj => isSome_pctChange _ (by omega))
  · exact isSome_rollingStd _ _ (by omega)
      (fun j hj => isSome_pctChange _ (by omega))
  · exact isSome_rollingMean _ (by omega) (fun j _ => isSome_pureS _ _)
  · exact isSome_rollingMean _ (by omega) (fun j _ => isSome_pureS _ _)
  · exact isSome_rollingMean _ (by omega) (fun j _ => isSome_pureS _ _)
  · rfl
  · rfl
  · exact isSome_omap2 _
      (isSome_rollingMean _ (by omega) (fun j _ => isSome_gainSeries _ _))
      (isSome_rollingMean _ (by omega) (fun j _ => isSome_lossSeries _ _))
  · rfl
  · rfl
  · exact isSome_stochK _ _ _ (by omega)
  · exact isSome_rollingMean _ (by omega)
      (fun j hj => isSome_stochK _ _ _ (by omega))
  · exact isSome_omap2 _
      (isSome_rollingMean _ (by omega) (fun j _ => isSome_pureS _ _))
      (isSome_rollingStd _ _ (by omega) (fun j _ => isSome_pureS _ _))
  · exact isSome_omap2 _
      (isSome_rollingMean _ (by omega) (fun j _ => isSome_pureS _ _))
      (isSome_rollingStd _ _ (by omega) (fun j _ => isSome_pureS _ _))
  · exact isSome_omap2 _
      (isSome_omap2 _
        (isSome_omap2 _
          (isSome_rollingMean _ (by omega) (fun j _ => isSome_pureS _ _))
          (isSome_rollingStd _ _ (by omega) (fun j _ => isSome_pureS _ _)))
        (isSome_omap2 _
          (isSome_rollingMean _ (by omega) (fun j _ => isSome_pureS _ _))
          (isSome_rollingStd _ _ (by omega) (fun j _ => isSome_pureS _ _))))
      (isSome_rollingMean _ (by omega) (fun j _ => isSome_pureS _ _))
  · exact isSome_rollingMean _ (by omega) (fun j _ => isSome_trueRange _ _ _ _)
  · rfl
  · rw [if_pos h1]; rfl
  · exact isSome_pctChange _ h1
  · exact isSome_rollingMean _ (by omega) (fun j _ => isSome_pureS _ _)
  · exact isSome_omap _
      (isSome_rollingMean _ (by omega) (fun j _ => isSome_pureS _ _))

lemma fullRow_mkRow_of_le {i : ℕ} (logFn sqrtFn : ℚ → ℚ) (df : List Bar)
    (h : i ≤ 48) : fullRow (mkRow logFn sqrtFn df i) = false := by
  have h50 : rollingMean 50 (pureS (col Bar.Close df)) i = none := by
    simp only [rollingMean, rollingApply]
    rw [if_neg (by omega)]
  simp only [fullRow, mkRow, featureCells, List.all_cons, List.all_nil]
  rw [h50]
  simp

lemma engineer_features_getD (logFn sqrtFn : ℚ → ℚ) (df : List Bar) {i : ℕ}
    (hi : i < df.length) :
    (engineer_features logFn sqrtFn df).getD i emptyRow =
      mkRow logFn sqrtFn df i := by
  simp [engineer_features, List.getD_eq_getElem?_getD, List.getElem?_map,
    List.getElem?_range, hi]

lemma providerBody_no_terms (p : Provider) :
    providerBody p [] [] false =
      (p.fetch (noTermsArg p), [(p.name, noTermsArg p)]) := by
  by_cases hl : p.isLocal
  · simp [providerBody, hl, noTermsArg]
  · simp [providerBody, hl, noTermsArg]

lemma runProviders_no_terms (ps : List Provider) :
    ∀ acc : RunLog,
      runProviders [] [] false ps acc =
        { rawResults := acc.rawResults ++ (ps.map okNoTerms).flatten,
          results := acc.results,
          fetchCalls := acc.fetchCalls ++ ps.map (fun p => (p.name, noTermsArg p)),
          onErrorCalls := acc.onErrorCalls ++
            ((ps.filter raisesNoTerms).map (fun p => p.name)) } := by
  induction ps with
  | nil =>
    intro acc
    cases acc
    simp [runProviders]
  | cons p rest ih =>
    intro acc
    simp only [runProviders, Bool.and_false, Bool.false_eq_true, if_false,
      providerBody_no_terms]
    cases hf : p.fetch (noTermsArg p) with
    | error e =>
      have hraise : raisesNoTerms p = true := by simp [raisesNoTerms, hf]
      have hok : okNoTerms p = [] := by simp [okNoTerms, hf]
      simp only [stepProvider, Bool.false_eq_true, if_false]
      rw [ih]
      simp [hraise, hok, List.filter_cons, List.append_assoc]
    | ok r =>
      have hraise : raisesNoTerms p = false := by simp [raisesNoTerms, hf]
      have hok : okNoTerms p = r := by simp [okNoTerms, hf]
      by_cases hr : r = []
      · subst hr
        simp only [stepProvider, ne_eq, not_true_eq_false, if_false,
          Bool.false_eq_true]
        rw [ih]
        simp [hraise, hok, List.filter_cons, List.append_assoc]
      · simp only [stepProvider, ne_eq, hr, not_false_eq_true, if_true,
          Bool.false_and, Bool.false_eq_true, if_false]
        rw [ih]
        simp [hraise, hok, List.filter_cons, List.append_assoc]

lemma providerBody_hasTerms_ok (p : Provider) (ts ns : List String)
    (hl : p.isLocal = false) :
    ∃ stocks calls, providerBody p ts ns true = (.ok stocks, calls) := by
  simp only [providerBody, hl, Bool.false_eq_true, if_false]
  exact ⟨_, _, if_neg (by rintro ⟨-, hc⟩; simp at hc)⟩

lemma runProviders_hasTerms_onError (ts ns : List String)
    (ps : List Provider) :
    ∀ acc : RunLog,
      (runProviders ts ns true ps acc).onErrorCalls = acc.onErrorCalls := by
  induction ps with
  | nil => intro acc; rfl
  | cons p rest ih =>
    intro acc
    by_cases hl : p.isLocal
    · simp only [runProviders, hl, Bool.and_self, if_true]
      exact ih acc
    · have hl' : p.isLocal = false := Bool.eq_false_iff.mpr hl
      obtain ⟨stocks, calls, hpb⟩ := providerBody_hasTerms_ok p ts ns hl'
      simp only [runProviders, hl', Bool.false_and, Bool.false_eq_true,
        if_false, hpb]
      by_cases hs : stocks = []
      · subst hs
        simp only [stepProvider, ne_eq, not_true_eq_false, if_false,
          Bool.false_eq_true]
        exact ih _
      · simp only [stepProvider, ne_eq, hs, not_false_eq_true, if_true,
          Bool.true_and]
        by_cases hb : (5 : ℕ) ≤ (acc.rawResults ++ stocks).length
        · have hd := decide_eq_true (p := (5 : ℕ) ≤ (acc.rawResults ++ stocks).length) hb
          have hb' : 5 ≤ acc.rawResults.length + stocks.length := by
            simpa using hb
          simp [hd, hb']
        · have hd := decide_eq_false hb
          simp only [hd, Bool.false_eq_true, if_false]
          rw [ih]

lemma nameSearch_raising (f : Option (List String) → Except Unit (List StockRec))
    (hf : ∀ a, f a = Except.error ()) (l : List String) (stocks : List StockRec) :
    (nameSearch f l stocks).1 = stocks := by
  cases l with
  | nil => rfl
  | cons nm rest => simp [nameSearch, hf]

lemma providerBody_raising_fst (p : Provider) (ts ns : List String)
    (hl : p.isLocal = false) (hr : ∀ a, p.fetch a = Except.error ()) :
    (providerBody p ts ns true).1 = Except.ok [] := by
  simp only [providerBody, hl, Bool.false_eq_true, if_false, hr]
  split_ifs with h1 h2 h3 h4 h5 h6 <;>
    first
      | exact (‹_ ∧ False›).2
      | rfl
      | simp [nameSearch_raising p.fetch hr]

/-- The fields other than `fetchCalls` of a `runProviders` run depend only on
the corresponding fields of the starting accumulator (nothing in the loop
reads `fetchCalls`). -/
lemma runProviders_frame (t n : List String) (h : Bool) (ps : List Provider) :
    ∀ acc₁ acc₂ : RunLog,
      acc₁.rawResults = acc₂.rawResults →
      acc₁.results = acc₂.results →
      acc₁.onErrorCalls = acc₂.onErrorCalls →
      (runProviders t n h ps acc₁).rawResults =
          (runProviders t n h ps acc₂).rawResults ∧
      (runProviders t n h ps acc₁).results =
          (runProviders t n h ps acc₂).results ∧
      (runProviders t n h ps acc₁).onErrorCalls =
          (runProviders t n h ps acc₂).onErrorCalls := by
  induction ps with
  | nil => intro acc₁ acc₂ h1 h2 h3; exact ⟨h1, h2, h3⟩
  | cons q rest ih =>
    intro acc₁ acc₂ h1 h2 h3
    simp only [runProviders]
    by_cases hq : (q.isLocal && h) = true
    · rw [if_pos hq, if_pos hq]
      exact ih _ _ h1 h2 h3
    · rw [if_neg hq, if_neg hq]
      rcases hpb : providerBody q t n h with ⟨outcome, calls⟩
      cases outcome with
      | error e =>
        simp only [stepProvider]
        exact ih _ _ (by simp [h1]) (by simp [h2]) (by simp [h3])
      | ok stocks =>
        by_cases hs : stocks = []
        · subst hs
          simp only [stepProvider, ne_eq, not_true_eq_false, if_false,
            Bool.false_eq_true]
          exact ih _ _ (by simp [h1]) (by simp [h2]) (by simp [h3])
        · simp only [stepProvider, ne_eq, hs, not_false_eq_true, if_true, h1]
          by_cases hb : (h && decide (5 ≤ (acc₂.rawResults ++ stocks).length))
              = true
          · rw [if_pos hb, if_pos hb]
            exact ⟨by simp [h1], by simp [h2], by simp [h3]⟩
          · rw [if_neg hb, if_neg hb]
            exact ih _ _ (by simp [h1]) (by simp [h2]) (by simp [h3])

/-- Dropping a never-succeeding (always-raising, non-local) provider from
anywhere in the provider list does not change the records accumulated or the
`on_error` calls of a with-terms run: its swallowed exceptions leave the loop
to continue with the next provider. -/
lemma runProviders_raising_mid (t n : List String) (p : Provider)
    (hl : p.isLocal = false) (hr : ∀ a, p.fetch a = Except.error ())
    (ps₁ ps₂ : List Provider) :
    ∀ acc : RunLog,
      (runProviders t n true (ps₁ ++ p :: ps₂) acc).rawResults =
          (runProviders t n true (ps₁ ++ ps₂) acc).rawResults ∧
      (runProviders t n true (ps₁ ++ p :: ps₂) acc).results =
          (runProviders t n true (ps₁ ++ ps₂) acc).results ∧
      (runProviders t n true (ps₁ ++ p :: ps₂) acc).onErrorCalls =
          (runProviders t n true (ps₁ ++ ps₂) acc).onErrorCalls := by
  induction ps₁ with
  | nil =>
    intro acc
    simp only [List.nil_append, runProviders, hl, Bool.false_and,
      Bool.false_eq_true, if_false, providerBody_raising_fst p t n hl hr]
    simp only [stepProvider, ne_eq, not_true_eq_false, if_false,
      Bool.false_eq_true]
    exact runProviders_frame t n true ps₂ _ acc rfl rfl rfl
  | cons q ps₁ ih =>
    intro acc
    simp only [List.cons_append, runProviders]
    by_cases hq : (q.isLocal && true) = true
    · rw [if_pos hq, if_pos hq]
      exact ih acc
    · rw [if_neg hq, if_neg hq]
      by_cases hst : (stepProvider q true acc (providerBody q t n true).1
          (providerBody q t n true).2).2 = true
      · rw [if_pos hst, if_pos hst]
        exact ⟨rfl, rfl, rfl⟩
      · rw [if_neg hst, if_neg hst]
        exact ih _

lemma dedup_filter_le_one (t : String) (l : List StockRec) :
    ∀ seen : List String,
      ((dedupByTicker seen l).filter (fun r => r.ticker == t)).length ≤ 1 ∧
      (t ∈ seen →
        ((dedupByTicker seen l).filter (fun r => r.ticker == t)).length = 0) := by
  induction l with
  | nil => intro seen; simp [dedupByTicker]
  | cons s rest ih =>
    intro seen
    by_cases hk : s.ticker ≠ "" ∧ s.ticker ∉ seen
    · simp only [dedupByTicker, if_pos hk]
      by_cases hst : s.ticker = t
      · have h0 := (ih (seen ++ [s.ticker])).2 (by simp [hst])
        rw [List.filter_cons_of_pos (by simp [hst])]
        constructor
        · simp [h0]
        · intro htin
          rw [hst] at hk
          exact absurd htin hk.2
      · rw [List.filter_cons_of_neg (by simp [hst])]
        exact ⟨(ih _).1, fun htin => (ih _).2 (List.mem_append_left _ htin)⟩
    · simp only [dedupByTicker, if_neg hk]
      exact ih seen

lemma dedup_find?_eq (t : String) (ht : t ≠ "") (l : List StockRec) :
    ∀ seen : List String, t ∉ seen →
      (dedupByTicker seen l).find? (fun r => r.ticker == t) =
        l.find? (fun r => r.ticker == t) := by
  induction l with
  | nil => intro seen _; simp [dedupByTicker]
  | cons s rest ih =>
    intro seen hts
    by_cases hst : s.ticker = t
    · have hk : s.ticker ≠ "" ∧ s.ticker ∉ seen := by
        rw [hst]; exact ⟨ht, hts⟩
      have hb : (s.ticker == t) = true := by simp [hst]
      simp only [dedupByTicker, if_pos hk]
      simp only [List.find?_cons, hb]
    · have hb : (s.ticker == t) = false := by simp [hst]
      by_cases hk : s.ticker ≠ "" ∧ s.ticker ∉ seen
      · simp only [dedupByTicker, if_pos hk]
        simp only [List.find?_cons, hb]
        apply ih
        intro hmem
        rcases List.mem_append.mp hmem with h | h
        · exact hts h
        · exact hst (List.mem_singleton.mp h).symm
      · simp only [dedupByTicker, if_neg hk]
        simp only [List.find?_cons, hb]
        exact ih seen hts

/-! ## Claim theorems -/

/-- C1 (code bug evidence): `get_confidence_label` never returns "MEDIUM" —
its MEDIUM branch requires `0.55 ≤ p` and `p ≤ 0.45` simultaneously, which is
unsatisfiable; in particular the claim's MEDIUM inputs `0.55` and `0.649999`
yield "LOW", contradicting the claimed MEDIUM band. -/
theorem get_confidence_label_medium_unreachable :
    get_confidence_label (55 / 100) = "LOW" ∧
    get_confidence_label (649999 / 1000000) = "LOW" ∧
    get_confidence_label (549999 / 1000000) = "LOW" ∧
    get_confidence_label (65 / 100) = "HIGH" ∧
    ∀ p : ℚ, get_confidence_label p ≠ "MEDIUM" := by
  refine ⟨?_, ?_, ?_, ?_, ?_⟩
  · norm_num [get_confidence_label, CONFIDENCE_HIGH, CONFIDENCE_MEDIUM]
  · norm_num [get_confidence_label, CONFIDENCE_HIGH, CONFIDENCE_MEDIUM]
  · norm_num [get_confidence_label, CONFIDENCE_HIGH, CONFIDENCE_MEDIUM]
  · norm_num [get_confidence_label, CONFIDENCE_HIGH, CONFIDENCE_MEDIUM]
  intro p
  unfold get_confidence_label CONFIDENCE_HIGH CONFIDENCE_MEDIUM
  split_ifs with h1 h2
  · simp
  · exfalso
    have h2a := h2.1
    have h2b := h2.2
    linarith
  · simp

/-- C3: for the base (non-local) provider circuit breaker, (a) from any
state, exactly `maxErrors` consecutive `on_error` calls with no intervening
`on_success` leave the provider unavailable; (b) `on_success` on any state
resets `errorCount` to 0 and sets `isAvailable` to true; (c) the invariant
`isAvailable = false ↔ errorCount ≥ maxErrors` holds after every sequence of
`on_success`/`on_error`/`reset_errors` steps from the initial state. -/
theorem circuit_breaker_spec :
    (∀ s : ProvState,
      (runOps s (List.replicate maxErrors .error)).isAvailable = false) ∧
    (∀ s : ProvState, on_success s = ⟨0, true⟩) ∧
    (∀ ops : List ProvOp, breakerInv (runOps initState ops)) := by
  refine ⟨?_, fun s => rfl, ?_⟩
  · intro s
    show (on_error (on_error (on_error (on_error (on_error s))))).isAvailable = false
    have hc : (on_error (on_error (on_error (on_error s)))).errorCount + 1 ≥ maxErrors := by
      simp only [on_error_errorCount, maxErrors]
      omega
    rw [on_error_isAvailable, if_pos hc]
  · intro ops
    apply breakerInv_runOps
    simp [breakerInv, initState, maxErrors]

/-- C4: `walk_forward_validation` considers exactly the three chronological
splits `(⌊0.6n⌋, ⌊0.8n⌋)`, `(⌊0.7n⌋, ⌊0.9n⌋)`, `(⌊0.8n⌋, n)` (training always
starts at row 0); a split is skipped iff its test slice has fewer than 10
rows; when all three are skipped the result is `(0.5, 0)`, otherwise it is
the unweighted arithmetic mean of the kept splits' accuracies paired with the
total test-sample count over the kept splits. -/
theorem walk_forward_validation_spec (n : ℕ) (score : ℕ → ℕ → ℚ) :
    walk_forward_validation n score =
      if keptSplits n = [] then (1 / 2, 0)
      else
        (((keptSplits n).map (fun p => score p.1 p.2)).sum /
           (((keptSplits n).length : ℕ) : ℚ),
         ((keptSplits n).map (fun p => p.2 - p.1)).sum) := by
  unfold walk_forward_validation keptSplits
  rw [foldl_wfvStep]
  by_cases h : keptOf n splits = []
  · simp [h]
  · have hm : (keptOf n splits).map (fun p => score p.1 p.2) ≠ [] := by
      simp [h]
    simp [h, hm]

/-- C9: `engineer_features` returns exactly one feature row per input bar
(length preserved — warm-up rows are present, not dropped by this
component); every row from index 49 on (past the SMA50 warm-up window,
the largest) has all 26 feature cells populated, and every earlier row
has at least one NaN cell (its SMA50 cell is NaN). -/
theorem engineer_features_length_and_warmup (logFn sqrtFn : ℚ → ℚ)
    (df : List Bar) :
    (engineer_features logFn sqrtFn df).length = df.length ∧
    ∀ i, i < df.length →
      (49 ≤ i →
        fullRow ((engineer_features logFn sqrtFn df).getD i emptyRow) = true) ∧
      (i ≤ 48 →
        fullRow ((engineer_features logFn sqrtFn df).getD i emptyRow) = false) := by
  refine ⟨by simp [engineer_features], ?_⟩
  intro i hi
  rw [engineer_features_getD logFn sqrtFn df hi]
  exact ⟨fun h => fullRow_mkRow_of_ge logFn sqrtFn df h,
         fun h => fullRow_mkRow_of_le logFn sqrtFn df h⟩

/-- Witness for C9 on a concrete 50-bar frame. -/
theorem engineer_features_length_and_warmup_witness :
    (engineer_features id id df50).length = df50.length ∧
    ((49 : ℕ) < df50.length ∧
      fullRow ((engineer_features id id df50).getD 49 emptyRow) = true) ∧
    ((0 : ℕ) < df50.length ∧
      fullRow ((engineer_features id id df50).getD 0 emptyRow) = false) := by
  have h := engineer_features_length_and_warmup id id df50
  have h49 : (49 : ℕ) < df50.length := by simp [df50]
  have h0 : (0 : ℕ) < df50.length := by simp [df50]
  exact ⟨h.1, ⟨h49, (h.2 49 h49).1 (by omega)⟩, ⟨h0, (h.2 0 h0).2 (by omega)⟩⟩

/-- C10: the `Target` column assigns the integer 0 (never NaN) to the final
row, for which `shift(-1)` has no next bar; with at least 50 input bars the
final row's features are also all populated, so it survives
`dropna(subset=features + [Target])` and enters the training data with the
fabricated label 0. -/
theorem final_row_target_zero (logFn sqrtFn : ℚ → ℚ) (df : List Bar)
    (h : 50 ≤ df.length) :
    ((engineer_features logFn sqrtFn df).getD (df.length - 1) emptyRow).Target
      = 0 ∧
    ((engineer_features logFn sqrtFn df).getD (df.length - 1) emptyRow) ∈
      dropnaRows (engineer_features logFn sqrtFn df) := by
  have hlt : df.length - 1 < df.length := by omega
  rw [engineer_features_getD logFn sqrtFn df hlt]
  constructor
  · simp only [mkRow]
    rw [if_neg]
    rintro ⟨h1, -⟩
    omega
  · simp only [dropnaRows]
    apply List.mem_filter.mpr
    constructor
    · simp only [engineer_features, List.mem_map]
      exact ⟨df.length - 1, by rw [List.mem_range]; omega, rfl⟩
    · exact fullRow_mkRow_of_ge _ _ _ (by omega)

/-- Witness for C10 on a concrete 50-bar frame. -/
theorem final_row_target_zero_witness :
    50 ≤ df50.length ∧
    ((engineer_features id id df50).getD (df50.length - 1) emptyRow).Target
      = 0 :=
  ⟨by simp [df50], (final_row_target_zero id id df50 (by simp [df50])).1⟩

/-- C5 counterexample: the "insufficient data" error does not name the row
count obtained. With a 150-bar history for "AAPL" the error message is
exactly "Insufficient data for AAPL" — it names the ticker but the row count
150 appears nowhere in it. -/
theorem insufficient_data_msg_no_row_count :
    train_and_predict id id (fun md => md.length) "AAPL" (some bars150) =
      .error "Insufficient data for AAPL" ∧
    ¬ List.IsInfix "150".toList "Insufficient data for AAPL".toList := by
  constructor
  · have h : bars150.length < 200 := by simp [bars150]
    simp only [train_and_predict, if_pos h]
    rfl
  · decide

/-- C5 (amended): prediction fails with the "insufficient data" error naming
the ticker (but not the row count) when the history is missing or has fewer
than 200 bars, and with the "not enough valid data" error naming the ticker
when fewer than 100 rows survive the NaN-dropping filter after feature
engineering. -/
theorem train_and_predict_insufficient_guards {α : Type}
    (logFn sqrtFn : ℚ → ℚ) (rest : List FeatureRow → α) (ticker : String) :
    (train_and_predict logFn sqrtFn rest ticker none =
       .error (insufficientDataMsg ticker)) ∧
    (∀ df : List Bar, df.length < 200 →
       train_and_predict logFn sqrtFn rest ticker (some df) =
         .error (insufficientDataMsg ticker)) ∧
    (∀ df : List Bar, 200 ≤ df.length →
       (dropnaRows (engineer_features logFn sqrtFn df)).length < 100 →
       train_and_predict logFn sqrtFn rest ticker (some df) =
         .error (notEnoughValidMsg ticker)) := by
  refine ⟨rfl, ?_, ?_⟩
  · intro df h
    simp [train_and_predict, h]
  · intro df h1 h2
    have hn : ¬ df.length < 200 := by omega
    simp [train_and_predict, hn, h2]

/-- Witness for C5 on the concrete 150-bar history. -/
theorem train_and_predict_insufficient_guards_witness :
    bars150.length < 200 ∧
    train_and_predict id id (fun md => md.length) "AAPL" (some bars150) =
      .error (insufficientDataMsg "AAPL") :=
  ⟨by simp [bars150],
   (train_and_predict_insufficient_guards id id (fun md => md.length)
      "AAPL").2.1 bars150 (by simp [bars150])⟩

/-- C2 counterexample: with no search terms and both the local provider and
an API provider available, the API provider's fetch IS invoked (with the
default symbol list, lines 137-139 of the fetcher) and the returned records
are not just the local database's records. -/
theorem no_terms_api_still_consulted :
    (fetch_comprehensive_stocks [localProv, apiProv] []).fetchCalls =
      [("Local Database", none), ("YFinance Direct", some default_symbols)] ∧
    (fetch_comprehensive_stocks [localProv, apiProv] []).results =
      [⟨"TCS.NS", 1⟩, ⟨"INFY.NS", 2⟩, ⟨"RELIANCE.NS", 3⟩] := by
  constructor
  · rfl
  · rfl

/-- C2 (amended): with no search terms the local provider is consulted for
its full listing and is not skipped, but it is not the sole provider
consulted: every other available provider is then consulted too, with the
default symbol list (each available provider exactly once, in list order);
the returned records are the per-ticker deduplication of everything gathered,
the local records first. -/
theorem fetch_no_terms_behaviour (providers : List Provider) :
    (fetch_comprehensive_stocks providers []).fetchCalls =
      ((providers.filter (fun p => p.state.isAvailable)).map
        (fun p => (p.name, noTermsArg p))) ∧
    (fetch_comprehensive_stocks providers []).rawResults =
      ((providers.filter (fun p => p.state.isAvailable)).map okNoTerms).flatten ∧
    (fetch_comprehensive_stocks providers []).results =
      dedupByTicker [] (fetch_comprehensive_stocks providers []).rawResults := by
  by_cases he : (providers.filter (fun p => p.state.isAvailable)).isEmpty
  · have hfil : providers.filter (fun p => p.state.isAvailable) = [] :=
      List.isEmpty_iff.mp he
    simp [fetch_comprehensive_stocks, he, hfil, dedupByTicker]
  · simp only [fetch_comprehensive_stocks, he, Bool.false_eq_true, if_false,
      classifyTerms, List.foldl_nil, List.isEmpty_nil, Bool.not_true]
    rw [runProviders_no_terms]
    simp

/-- C6: the result of every `fetch_comprehensive_stocks` run is the
per-ticker deduplication of the accumulated records (gathered from the
providers in list = ascending-priority order): it holds at most one record
per ticker, and for every non-empty ticker the record retained is the first
occurrence in accumulation order — the version from the highest-priority
provider that returned it. -/
theorem fetch_results_dedup_first_wins (providers : List Provider)
    (terms : List String) :
    (fetch_comprehensive_stocks providers terms).results =
      dedupByTicker [] (fetch_comprehensive_stocks providers terms).rawResults ∧
    (∀ t : String,
      (((fetch_comprehensive_stocks providers terms).results).filter
        (fun r => r.ticker == t)).length ≤ 1) ∧
    (∀ t : String, t ≠ "" →
      ((fetch_comprehensive_stocks providers terms).results).find?
        (fun r => r.ticker == t) =
      ((fetch_comprehensive_stocks providers terms).rawResults).find?
        (fun r => r.ticker == t)) := by
  have hres : (fetch_comprehensive_stocks providers terms).results =
      dedupByTicker [] (fetch_comprehensive_stocks providers terms).rawResults := by
    by_cases he : (providers.filter (fun p => p.state.isAvailable)).isEmpty
    · simp [fetch_comprehensive_stocks, he, dedupByTicker]
    · simp [fetch_comprehensive_stocks, he]
  refine ⟨hres, ?_, ?_⟩
  · intro t
    rw [hres]
    exact (dedup_filter_le_one t _ []).1
  · intro t ht
    rw [hres]
    exact dedup_find?_eq t ht _ [] (by simp)

/-- Witness for C6: on a run where the local provider and a lower-priority
API provider both return ticker "TCS.NS", the retained record is the first
(local, payload 1) occurrence. -/
theorem fetch_results_dedup_first_wins_witness :
    ("TCS.NS" : String) ≠ "" ∧
    ((fetch_comprehensive_stocks [localProv, dupApiProv] []).results).find?
      (fun r => r.ticker == "TCS.NS") =
    ((fetch_comprehensive_stocks [localProv, dupApiProv] []).rawResults).find?
      (fun r => r.ticker == "TCS.NS") ∧
    ((fetch_comprehensive_stocks [localProv, dupApiProv] []).results).find?
      (fun r => r.ticker == "TCS.NS") = some ⟨"TCS.NS", 1⟩ :=
  ⟨by decide,
   (fetch_results_dedup_first_wins [localProv, dupApiProv] []).2.2 "TCS.NS"
     (by decide),
   by rfl⟩

/-- C7 counterexample: a provider exception raised during a fetchAll run
does NOT always trigger that provider's `on_error`: with search terms, the
exception raised by the ticker search is swallowed by the inner handler — the
fetch was invoked and raised, yet no `on_error` call was made. -/
theorem exception_without_on_error :
    badApiProv.fetch (some ["RELIANCE.NS"]) = .error () ∧
    (fetch_comprehensive_stocks [badApiProv] ["RELIANCE.NS"]).fetchCalls =
      [("AlphaVantage", some ["RELIANCE.NS"])] ∧
    (fetch_comprehensive_stocks [badApiProv] ["RELIANCE.NS"]).onErrorCalls
      = [] := by
  exact ⟨rfl, rfl, rfl⟩

/-- C7 (amended): exceptions raised during the per-term ticker/name searches
are caught by the inner handlers without calling `on_error` — with search
terms supplied, no `on_error` is ever called; with no terms, `on_error` is
called exactly for the available providers whose single (full-listing or
default-symbols) fetch raises, while every available provider's records are
still collected; and in every case the search continues with the next
provider, with results gathered from other providers still returned: an
always-raising non-local provider can be removed from anywhere in the list
without changing the records a with-terms run returns. A provider returning
zero results without raising never triggers `on_error`. -/
theorem on_error_calls_characterized (providers : List Provider)
    (terms : List String) (p : Provider) (ps₁ ps₂ : List Provider) :
    (terms ≠ [] →
      (fetch_comprehensive_stocks providers terms).onErrorCalls = []) ∧
    (terms = [] →
      (fetch_comprehensive_stocks providers terms).onErrorCalls =
        ((providers.filter (fun q => q.state.isAvailable)).filter
          raisesNoTerms).map (fun q => q.name)) ∧
    (terms = [] →
      (fetch_comprehensive_stocks providers terms).rawResults =
        ((providers.filter (fun q => q.state.isAvailable)).map
          okNoTerms).flatten) ∧
    (terms ≠ [] → p.isLocal = false →
      (∀ a, p.fetch a = Except.error ()) →
      (fetch_comprehensive_stocks (ps₁ ++ p :: ps₂) terms).results =
          (fetch_comprehensive_stocks (ps₁ ++ ps₂) terms).results ∧
      (fetch_comprehensive_stocks (ps₁ ++ p :: ps₂) terms).rawResults =
          (fetch_comprehensive_stocks (ps₁ ++ ps₂) terms).rawResults) := by
  refine ⟨?_, ?_, ?_, ?_⟩
  · intro hne
    by_cases he : (providers.filter (fun q => q.state.isAvailable)).isEmpty
    · simp [fetch_comprehensive_stocks, he]
    · have hterm : (!terms.isEmpty) = true := by
        cases terms with
        | nil => exact absurd rfl hne
        | cons a b => rfl
      simp only [fetch_comprehensive_stocks, he, Bool.false_eq_true, if_false,
        hterm]
      rw [runProviders_hasTerms_onError]
  · intro hnil
    subst hnil
    by_cases he : (providers.filter (fun q => q.state.isAvailable)).isEmpty
    · have hfil : providers.filter (fun q => q.state.isAvailable) = [] :=
        List.isEmpty_iff.mp he
      simp [fetch_comprehensive_stocks, he, hfil]
    · simp only [fetch_comprehensive_stocks, he, Bool.false_eq_true, if_false,
        classifyTerms, List.foldl_nil, List.isEmpty_nil, Bool.not_true]
      rw [runProviders_no_terms]
      simp
  · intro hnil
    subst hnil
    by_cases he : (providers.filter (fun q => q.state.isAvailable)).isEmpty
    · have hfil : providers.filter (fun q => q.state.isAvailable) = [] :=
        List.isEmpty_iff.mp he
      simp [fetch_comprehensive_stocks, he, hfil]
    · simp only [fetch_comprehensive_stocks, he, Bool.false_eq_true, if_false,
        classifyTerms, List.foldl_nil, List.isEmpty_nil, Bool.not_true]
      rw [runProviders_no_terms]
      simp
  · intro hne hl hr
    have hterm : (!terms.isEmpty) = true := by
      cases terms with
      | nil => exact absurd rfl hne
      | cons a b => rfl
    by_cases hav : p.state.isAvailable = true
    · have hsplit : (ps₁ ++ p :: ps₂).filter (fun q => q.state.isAvailable) =
          ps₁.filter (fun q => q.state.isAvailable) ++
            p :: ps₂.filter (fun q => q.state.isAvailable) := by
        simp [List.filter_append, List.filter_cons, hav]
      have hsplit' : (ps₁ ++ ps₂).filter (fun q => q.state.isAvailable) =
          ps₁.filter (fun q => q.state.isAvailable) ++
            ps₂.filter (fun q => q.state.isAvailable) := by
        simp [List.filter_append]
      have hmid := runProviders_raising_mid (classifyTerms terms).1
        (classifyTerms terms).2 p hl hr
        (ps₁.filter (fun q => q.state.isAvailable))
        (ps₂.filter (fun q => q.state.isAvailable)) ⟨[], [], [], []⟩
      have hempL : ((ps₁.filter (fun q => q.state.isAvailable)) ++
          p :: (ps₂.filter (fun q => q.state.isAvailable))).isEmpty = false := by
        simp [List.isEmpty_iff]
      by_cases hemp : ((ps₁.filter (fun q => q.state.isAvailable)) ++
          (ps₂.filter (fun q => q.state.isAvailable))).isEmpty
      · have hA : ps₁.filter (fun q => q.state.isAvailable) = [] ∧
            ps₂.filter (fun q => q.state.isAvailable) = [] := by
          simpa [List.isEmpty_iff, List.append_eq_nil] using hemp
        obtain ⟨hA1, hA2⟩ := hA
        rw [hA1, hA2] at hmid
        simp only [List.nil_append] at hmid
        have hraw : (runProviders (classifyTerms terms).1
            (classifyTerms terms).2 true [p] ⟨[], [], [], []⟩).rawResults =
            ([] : List StockRec) := hmid.1
        simp only [fetch_comprehensive_stocks, hsplit, hsplit', hA1, hA2,
          List.nil_append, hterm]
        constructor
        · simp [hraw, dedupByTicker]
        · simp [hraw]
      · simp only [fetch_comprehensive_stocks, hsplit, hsplit', hempL,
          Bool.false_eq_true, if_false,
          Bool.eq_false_iff.mpr hemp, hterm]
        refine ⟨?_, hmid.1⟩
        rw [hmid.1]
    · have hav' : p.state.isAvailable = false := by
        cases hpa : p.state.isAvailable with
        | false => rfl
        | true => exact absurd hpa hav
      have hsame : (ps₁ ++ p :: ps₂).filter (fun q => q.state.isAvailable) =
          (ps₁ ++ ps₂).filter (fun q => q.state.isAvailable) := by
        simp [List.filter_append, List.filter_cons, hav']
      have hsame2 : fetch_comprehensive_stocks (ps₁ ++ p :: ps₂) terms =
          fetch_comprehensive_stocks (ps₁ ++ ps₂) terms := by
        simp only [fetch_comprehensive_stocks, hsame]
      rw [hsame2]
      exact ⟨rfl, rfl⟩

/-- Witness for C7: (a) a no-terms run over the local provider and an
always-raising API provider calls `on_error` exactly for the raising
provider; (b) with a search term, removing the always-raising provider from
the middle of the list leaves the returned records unchanged — the two
working providers' records are still returned. -/
theorem on_error_calls_characterized_witness :
    (fetch_comprehensive_stocks [localProv, badApiProv] []).onErrorCalls =
      ["AlphaVantage"] ∧
    (fetch_comprehensive_stocks [apiProv, badApiProv, dupApiProv]
        ["RELIANCE.NS"]).results =
      (fetch_comprehensive_stocks [apiProv, dupApiProv]
        ["RELIANCE.NS"]).results := by
  constructor
  · have h := (on_error_calls_characterized [localProv, badApiProv] []
      localProv [] []).2.1 rfl
    rw [h]
    rfl
  · exact ((on_error_calls_characterized [] ["RELIANCE.NS"] badApiProv
      [apiProv] [dupApiProv]).2.2.2 (by simp) rfl (fun a => rfl)).1

/-- C8: the local-database provider's state stays at `errorCount = 0`,
`isAvailable = true` after any sequence of `on_success` / (overridden no-op)
`on_error` / `reset_errors` operations from its initial state. -/
theorem local_provider_never_disabled :
    ∀ ops : List ProvOp,
      (localRunOps initState ops).errorCount = 0 ∧
      (localRunOps initState ops).isAvailable = true := by
  have key : ∀ ops : List ProvOp, localRunOps initState ops = ⟨0, true⟩ := by
    intro ops
    show localRunOps ⟨0, true⟩ ops = ⟨0, true⟩
    induction ops with
    | nil => rfl
    | cons op rest ih =>
      show localRunOps (localApplyOp ⟨0, true⟩ op) rest = ⟨0, true⟩
      rw [localApplyOp_fixed]
      exact ih
  intro ops
  rw [key ops]
  exact ⟨rfl, rfl⟩

end InvestmentHelper
